import Mathlib

/-!
A shallow embedding of the video-renderer core: the task registry
(`src/src/lib/render-tasks.ts`, and its logging variant in the repository),
the background render worker `performRender` (the render API route), the
per-frame surface pipeline, the encoder deadline, and the audio-mixing
filter construction.  JavaScript numbers are modelled as rationals, with
`Math.floor`/`Math.ceil`/`Math.round` as the corresponding integer
operations on `ℚ`; side-effecting code is modelled as pure trace
generators parameterised by the environment's behaviour (audio validation
outcome, encoder progress reports, encoder finishing time, mixer outcome).
-/

/-- Status of a render task, from the `RenderTask` interface:
`'pending' | 'processing' | 'completed' | 'failed'`. -/
inductive TaskStatus where
  | pending
  | processing
  | completed
  | failed
deriving DecidableEq, Repr

/-- Quality tier of a render job: `'low' | 'medium' | 'high'`. -/
inductive Quality where
  | low
  | medium
  | high
deriving DecidableEq, Repr

/-- An audio track specification, from the request body / `RenderTask`
parameters: `{url: string, start: number, end?: number, volume: number}`.
The source field `end` is a Lean keyword, so it is named `endTime` here. -/
structure AudioTrackSpec where
  url : String
  start : ℚ
  endTime : Option ℚ
  volume : ℚ
deriving DecidableEq, Repr

/-- Render job parameters (`RenderParams` in `types.ts` / the
`parameters` field of `RenderTask`).  The optional `args` bag is carried
opaquely as string pairs; an absent `audio` array is modelled as `[]`
(the worker only ever tests `audio && audio.length > 0`). -/
structure RenderParams where
  width : ℚ
  height : ℚ
  duration : ℚ
  render : String
  fps : Option ℚ
  quality : Option Quality
  args : List (String × String)
  audio : List AudioTrackSpec
deriving DecidableEq, Repr

/-- JavaScript truthiness check `s.trim() === ""` for a string: the trim
is empty exactly when every character is whitespace. -/
def jsIsBlank (s : String) : Bool :=
  s.data.all Char.isWhitespace

/-- Validation performed by the POST handler on the request body
(`route.ts`, the field-by-field checks before `createTask`): positive
width/height/duration, non-blank render source, fps in (0, 60] when
present, and per-track audio constraints (non-blank url, 0 ≤ start <
duration, start < end ≤ duration when end is present, volume in [0,1]).
Parameters reaching `performRender` satisfy this predicate. -/
def validRenderParams (p : RenderParams) : Prop :=
  0 < p.width ∧ 0 < p.height ∧ 0 < p.duration ∧
  jsIsBlank p.render = false ∧
  (∀ f ∈ p.fps, 0 < f ∧ f ≤ 60) ∧
  (∀ t ∈ p.audio,
    jsIsBlank t.url = false ∧
    0 ≤ t.start ∧ t.start < p.duration ∧
    (∀ e ∈ t.endTime, t.start < e ∧ e ≤ p.duration) ∧
    0 ≤ t.volume ∧ t.volume ≤ 1)

/-- Success payload stored in a task result (`result.video`). -/
structure VideoPayload where
  url : String
  path : String
  size : ℕ
  frames : ℕ
  duration : ℚ
  fps : ℚ
  width : ℚ
  height : ℚ
deriving DecidableEq, Repr

/-- A task result (`RenderTask['result']`): a success flag plus either a
video payload or an error message with optional details. -/
structure TaskResult where
  success : Bool
  video : Option VideoPayload
  error : Option String
  details : Option String
deriving DecidableEq, Repr

/-- A render task record (`RenderTask`).  Timestamps are abstract ticks. -/
structure RenderTask where
  id : String
  status : TaskStatus
  progress : ℤ
  createdAt : ℕ
  updatedAt : ℕ
  result : Option TaskResult
  parameters : RenderParams
deriving DecidableEq, Repr

/-- The task registry: the `Map<string, RenderTask>` owned by
`RenderTaskManager`, modelled as a lookup function. -/
def TaskMap : Type := String → Option RenderTask

/-- Manager operation `createTask(parameters)`: builds the id
`task_<Date.now()>_<random suffix>` from the environment-supplied clock
tick and random suffix, registers a pending task with progress 0 and no
result, and returns the id. -/
def createTask (tasks : TaskMap) (parameters : RenderParams) (now : ℕ)
    (rand : String) : TaskMap × String :=
  let taskId := "task_" ++ toString now ++ "_" ++ rand
  let task : RenderTask :=
    { id := taskId, status := .pending, progress := 0, createdAt := now,
      updatedAt := now, result := none, parameters := parameters }
  (fun id => if id = taskId then some task else tasks id, taskId)

/-- Manager operation `getTask(taskId)`. -/
def getTask (tasks : TaskMap) (taskId : String) : Option RenderTask :=
  tasks taskId

/-- Manager operation `updateTaskStatus(taskId, status, progress?)`: on a
hit, sets the status, optionally overwrites progress (without clamping),
and touches `updatedAt`; on a miss the registry is returned unchanged and
the miss is logged (`console.error` in the logging variant of
`RenderTaskManager`).  The second component collects the console lines. -/
def updateTaskStatus (tasks : TaskMap) (taskId : String)
    (status : TaskStatus) (progress : Option ℤ) (now : ℕ) :
    TaskMap × List String :=
  match tasks taskId with
  | some task =>
      (fun id => if id = taskId then
          some { task with
                   status := status,
                   updatedAt := now,
                   progress := progress.getD task.progress }
        else tasks id,
       ["Updating task " ++ taskId])
  | none => (tasks, ["Task " ++ taskId ++ " not found when updating status"])

/-- Manager operation `updateTaskProgress(taskId, progress)`: on a hit,
stores `Math.min(100, Math.max(0, progress))` and touches `updatedAt`;
on a miss the registry is returned unchanged and the miss is logged. -/
def updateTaskProgress (tasks : TaskMap) (taskId : String) (progress : ℤ)
    (now : ℕ) : TaskMap × List String :=
  match tasks taskId with
  | some task =>
      (fun id => if id = taskId then
          some { task with
                   progress := min 100 (max 0 progress),
                   updatedAt := now }
        else tasks id,
       ["Updating progress for task " ++ taskId])
  | none => (tasks, ["Task " ++ taskId ++ " not found when updating progress"])

/-- Manager operation `setTaskResult(taskId, result)`: on a hit, stores
the result, forces the status to completed/failed according to
`result?.success`, and forces progress to 100; on a miss the registry is
returned unchanged and the miss is logged. -/
def setTaskResult (tasks : TaskMap) (taskId : String)
    (result : Option TaskResult) (now : ℕ) : TaskMap × List String :=
  match tasks taskId with
  | some task =>
      (fun id => if id = taskId then
          some { task with
                   result := result,
                   status := (match result with
                              | some r =>
                                  if r.success then TaskStatus.completed
                                  else TaskStatus.failed
                              | none => TaskStatus.failed),
                   progress := 100,
                   updatedAt := now }
        else tasks id,
       ["Setting result for task " ++ taskId])
  | none => (tasks, ["Task " ++ taskId ++ " not found when setting result"])

/-- A sample parameters value used by the concrete witnesses below. -/
def sampleParams : RenderParams :=
  { width := 800, height := 600, duration := 1, render := "x",
    fps := some 1, quality := none, args := [], audio := [] }

/-- Claim C9: every Task-Manager mutating operation invoked with an id
that is not in the registry leaves the registry completely unchanged,
raises no exception (each operation is a total function back into
`TaskMap`), and logs the miss (the returned console-line list is
non-empty). -/
theorem unknownId_ops_are_logged_noops (tasks : TaskMap) (taskId : String)
    (h : tasks taskId = none) (status : TaskStatus) (progressArg : Option ℤ)
    (progressVal : ℤ) (result : Option TaskResult) (now : ℕ) :
    (updateTaskStatus tasks taskId status progressArg now).1 = tasks ∧
    (updateTaskStatus tasks taskId status progressArg now).2 ≠ [] ∧
    (updateTaskProgress tasks taskId progressVal now).1 = tasks ∧
    (updateTaskProgress tasks taskId progressVal now).2 ≠ [] ∧
    (setTaskResult tasks taskId result now).1 = tasks ∧
    (setTaskResult tasks taskId result now).2 ≠ [] := by
  unfold updateTaskStatus updateTaskProgress setTaskResult
  rw [h]
  exact ⟨rfl, by simp, rfl, by simp, rfl, by simp⟩

/-- Witness for C9 at a concrete input: the empty registry with id
"task_missing". -/
theorem unknownId_ops_are_logged_noops_witness :
    ((fun _ => none : TaskMap) "task_missing" = none) ∧
    ((updateTaskStatus (fun _ => none) "task_missing" .processing (some 0) 7).1
        = (fun _ => none : TaskMap) ∧
     (updateTaskStatus (fun _ => none) "task_missing" .processing (some 0) 7).2 ≠ [] ∧
     (updateTaskProgress (fun _ => none) "task_missing" 55 7).1
        = (fun _ => none : TaskMap) ∧
     (updateTaskProgress (fun _ => none) "task_missing" 55 7).2 ≠ [] ∧
     (setTaskResult (fun _ => none) "task_missing" none 7).1
        = (fun _ => none : TaskMap) ∧
     (setTaskResult (fun _ => none) "task_missing" none 7).2 ≠ []) :=
  ⟨rfl, unknownId_ops_are_logged_noops (fun _ => none) "task_missing" rfl
      .processing (some 0) 55 none 7⟩

/-- Claim C10: `createTask(p)` returns an id under which the registry
holds a fresh task with status pending, progress 0, parameters `p`, no
result, and creation/update timestamps of the call; every other id maps
exactly as before. -/
theorem createTask_registers_pending_task (tasks : TaskMap)
    (p : RenderParams) (now : ℕ) (rand : String) :
    getTask (createTask tasks p now rand).1 (createTask tasks p now rand).2 =
      some { id := (createTask tasks p now rand).2, status := .pending,
             progress := 0, createdAt := now, updatedAt := now,
             result := none, parameters := p } ∧
    ∀ id, (createTask tasks p now rand).1 id =
      if id = (createTask tasks p now rand).2 then
        some { id := (createTask tasks p now rand).2, status := .pending,
               progress := 0, createdAt := now, updatedAt := now,
               result := none, parameters := p }
      else tasks id := by
  refine ⟨?_, fun id => rfl⟩
  unfold getTask createTask
  simp

/-- A Task-Manager mutation as performed by the worker: the three
operations `updateTaskStatus`, `updateTaskProgress`, `setTaskResult`
restricted to the (status, progress) fields they drive. -/
inductive Upd where
  | statusUpd (status : TaskStatus) (progress : Option ℤ)
  | progressUpd (progress : ℤ)
  | resultUpd (success : Bool)
deriving DecidableEq, Repr

/-- Effect of one mutation on the (status, progress) pair of a registered
task, mirroring the three manager operations: `updateTaskStatus` sets the
status and optionally overwrites progress unclamped; `updateTaskProgress`
clamps to [0, 100]; `setTaskResult` forces completed/failed and 100. -/
def applyUpd : TaskStatus × ℤ → Upd → TaskStatus × ℤ
  | (_, progress), .statusUpd s q => (s, q.getD progress)
  | (s, _), .progressUpd q => (s, min 100 (max 0 q))
  | _, .resultUpd ok => (if ok then .completed else .failed, 100)

/-- Consistency of `applyUpd` with the registry operations: on a
registered task, each manager operation stores exactly the
(status, progress) pair computed by `applyUpd`. -/
theorem applyUpd_agrees (tasks : TaskMap) (taskId : String)
    (task : RenderTask) (h : tasks taskId = some task) (s : TaskStatus)
    (q : Option ℤ) (q2 : ℤ) (r : Option TaskResult) (now : ℕ) :
    ((updateTaskStatus tasks taskId s q now).1 taskId).map
        (fun t => (t.status, t.progress))
      = some (applyUpd (task.status, task.progress) (.statusUpd s q)) ∧
    ((updateTaskProgress tasks taskId q2 now).1 taskId).map
        (fun t => (t.status, t.progress))
      = some (applyUpd (task.status, task.progress) (.progressUpd q2)) ∧
    ((setTaskResult tasks taskId r now).1 taskId).map
        (fun t => (t.status, t.progress))
      = some (applyUpd (task.status, task.progress)
        (.resultUpd (match r with | some res => res.success | none => false))) := by
  unfold updateTaskStatus updateTaskProgress setTaskResult
  rw [h]
  refine ⟨by simp [applyUpd], by simp [applyUpd], ?_⟩
  cases r with
  | none => simp [applyUpd]
  | some res => cases hres : res.success <;> simp [applyUpd, hres]

/-- The per-frame context handed to the render function
(`FrameContext` in the render route), minus the opaque caller `args`
bag that is spread into it. -/
structure FrameContext where
  time : ℚ
  frame : ℕ
  duration : ℚ
  width : ℚ
  height : ℚ
deriving DecidableEq, Repr

/-- Observable events of one `performRender` run: Task-Manager mutations,
render-function invocations (with the context passed), and frame
captures (`page.screenshot` to the indexed file). -/
inductive Ev where
  | update (u : Upd)
  | renderFrame (ctx : FrameContext)
  | captureFrame (frame : ℕ)
deriving DecidableEq, Repr

/-- Effective frame rate: `const fps = requestedFps || 24` (JavaScript
`||` takes the default both when fps is absent and when it is 0). -/
def effFps (p : RenderParams) : ℚ :=
  match p.fps with
  | some f => if f = 0 then 24 else f
  | none => 24

/-- Total frame count: `const totalFrames = Math.ceil(duration * fps)`. -/
def totalFrames (p : RenderParams) : ℕ :=
  (⌈p.duration * effFps p⌉).toNat

/-- Fuel-driven unfolding of the outer batch loop
`for (batchStart = 0; batchStart < totalFrames; batchStart += batchSize)`
with `batchSize = 2`; each step contributes the inner loop's frame
indices `batchStart ≤ frame < batchEnd`, `batchEnd = min (batchStart+2) N`.
The fuel is only a structural-recursion bound; `batchLoop_eq_range`
below shows `N` units always suffice. -/
def batchLoopAux (N : ℕ) : ℕ → ℕ → List ℕ
  | 0, _ => []
  | fuel + 1, batchStart =>
    if batchStart < N then
      List.range' batchStart (min (batchStart + 2) N - batchStart) ++
        batchLoopAux N fuel (batchStart + 2)
    else []

/-- The sequence of frame indices visited by the batch loop. -/
def batchLoop (N : ℕ) : List ℕ :=
  batchLoopAux N N 0

/-- Events of one iteration of the inner frame loop: the progress update
`baseProgress + Math.floor((frame / totalFrames) * 65)`, the render
function invocation with the frame context (`time = frame / fps`), and
the screenshot capture at the frame's index. -/
def frameEvs (p : RenderParams) (base : ℤ) (N : ℕ) (frame : ℕ) : List Ev :=
  [Ev.update (.progressUpd (base + ⌊(frame : ℚ) / (N : ℚ) * 65⌋)),
   Ev.renderFrame { time := (frame : ℚ) / effFps p, frame := frame,
                    duration := p.duration, width := p.width,
                    height := p.height },
   Ev.captureFrame frame]

/-- Environment behaviour of one run: the audio-validation outcome, the
encoder's finishing time and success flag (none = it never finishes),
the percent values delivered by encoder and mixer progress events, the
mixer outcome, and — because a timed-out encoder is only abandoned, not
killed, and its progress handler is not guarded by `isResolved` — the
percent values the orphaned encoder keeps reporting after the deadline.
Reports that land before the catch block's `setTaskResult` are covered
by `encodePercents`; `lateEncodePercents` are the ones that land after
it. -/
structure RenderEnv where
  audioOk : Bool
  encodeFinish : Option (ℚ × Bool)
  encodePercents : List ℚ
  mixOk : Bool
  mixPercents : List ℚ
  lateEncodePercents : List ℚ

/-- Encoder deadline:
`const timeoutMs = Math.max(30000, duration * 10000)`. -/
def ffmpegTimeoutMs (duration : ℚ) : ℚ :=
  max 30000 (duration * 10000)

/-- Outcome of the deadline-guarded encoder invocation. -/
inductive EncodeOutcome where
  | ok
  | errored
  | timedOut
deriving DecidableEq, Repr

/-- Resolution of the race between the ffmpeg end/error events and the
deadline timer: whichever fires first wins (`isResolved` guard); an
encoder that has not finished strictly before the deadline is treated as
hung and the promise rejects with the timeout error. -/
def encodeOutcome (duration : ℚ) (env : RenderEnv) : EncodeOutcome :=
  match env.encodeFinish with
  | none => .timedOut
  | some (t, good) =>
      if t < ffmpegTimeoutMs duration then
        (if good then .ok else .errored)
      else .timedOut

/-- Progress value of one encoder progress event:
`Math.floor(baseProgress + 65 + (percent / 100) * 20)`. -/
def encodeProgressVal (base : ℤ) (percent : ℚ) : ℤ :=
  ⌊(base : ℚ) + 65 + percent / 100 * 20⌋

/-- Progress value of one mixing progress event:
`Math.floor(baseProgress + 85 + (percent / 100) * 5)`. -/
def mixProgressVal (base : ℤ) (percent : ℚ) : ℤ :=
  ⌊(base : ℚ) + 85 + percent / 100 * 5⌋

/-- Encoder progress events (fluent-ffmpeg only fires the handler body
when `progress.percent` is truthy, hence the `!= 0` filter). -/
def encodeEvs (env : RenderEnv) (base : ℤ) : List Ev :=
  (env.encodePercents.filter (fun q => q != 0)).map
    (fun q => Ev.update (.progressUpd (encodeProgressVal base q)))

/-- Mixing progress events, with the same truthiness filter. -/
def mixEvs (env : RenderEnv) (base : ℤ) : List Ev :=
  (env.mixPercents.filter (fun q => q != 0)).map
    (fun q => Ev.update (.progressUpd (mixProgressVal base q)))

/-- Progress events the orphaned encoder fires after its deadline: the
timeout only rejects the promise — the ffmpeg process is never killed —
and the progress handler is not guarded by `isResolved`, so each late
report still calls `updateTaskProgress` with the encoding formula. -/
def lateEncodeEvs (env : RenderEnv) (base : ℤ) : List Ev :=
  (env.lateEncodePercents.filter (fun q => q != 0)).map
    (fun q => Ev.update (.progressUpd (encodeProgressVal base q)))

/-- Events after the encoder promise settles: if encoding beat its
deadline, the `baseProgress + 85` update and — when audio is present —
the mixing progress events; an encoder error or timeout throws, skipping
straight to the catch block. -/
def afterEncodeEvs (p : RenderParams) (env : RenderEnv) (base : ℤ) :
    List Ev :=
  if encodeOutcome p.duration env = .ok then
    Ev.update (.progressUpd (base + 85)) ::
    (if !p.audio.isEmpty then mixEvs env base else [])
  else []

/-- Events of the run from the frame loop onward (reached only when any
audio validated): the batched frame loop, the `baseProgress + 65` update,
the encoder progress events, then the post-encode events. -/
def mainPhase (p : RenderParams) (env : RenderEnv) (base : ℤ) : List Ev :=
  (batchLoop (totalFrames p)).flatMap (frameEvs p base (totalFrames p)) ++
  [Ev.update (.progressUpd (base + 65))] ++
  encodeEvs env base ++
  afterEncodeEvs p env base

/-- Events of one `performRender` run before the final `setTaskResult`:
the initial `updateTaskStatus(taskId, "processing", 0)`; with audio, the
progress-5 update, then on validation failure the run aborts (the thrown
validation error skips straight to the catch block), otherwise the
progress-10 update and the main phase with `baseProgress = 10`; without
audio the main phase runs with `baseProgress = 0`. -/
def traceBody (p : RenderParams) (env : RenderEnv) : List Ev :=
  Ev.update (.statusUpd .processing (some 0)) ::
  (if !p.audio.isEmpty then
    Ev.update (.progressUpd 5) ::
    (if env.audioOk then
      Ev.update (.progressUpd 10) :: mainPhase p env 10
     else [])
   else mainPhase p env 0)

/-- Whether the run reaches the success result: audio (if any) validated,
the encoder finished in time and successfully, and mixing (if audio is
present) succeeded. -/
def traceSuccess (p : RenderParams) (env : RenderEnv) : Bool :=
  if !p.audio.isEmpty && !env.audioOk then false
  else
    match encodeOutcome p.duration env with
    | .ok => p.audio.isEmpty || env.mixOk
    | _ => false

/-- Events after the final `setTaskResult`: when an encoder was started
and missed its deadline, the never-killed ffmpeg process keeps firing
progress events whose unguarded handler overwrites the finished task's
progress.  No other stage reports after the result: the encoder's
end/error events are `isResolved`-guarded, and the mixing command only
settles once its process has ended. -/
def postResultEvs (p : RenderParams) (env : RenderEnv) : List Ev :=
  if !p.audio.isEmpty && !env.audioOk then []
  else if encodeOutcome p.duration env = .timedOut then
    lateEncodeEvs env (if !p.audio.isEmpty then 10 else 0)
  else []

/-- The full event trace of one `performRender` run: the body, the single
final `setTaskResult` (the success result at the end of the try block,
or the error result in the catch block), and then any progress reports
an orphaned timed-out encoder still fires. -/
def performRenderTrace (p : RenderParams) (env : RenderEnv) : List Ev :=
  traceBody p env ++ [Ev.update (.resultUpd (traceSuccess p env))] ++
    postResultEvs p env

/-- Projection selecting the Task-Manager mutation of an event. -/
def evUpd : Ev → Option Upd
  | .update u => some u
  | _ => none

/-- The sequence of Task-Manager mutations of a trace. -/
def updatesOf (tr : List Ev) : List Upd :=
  tr.filterMap evUpd

/-- Projection selecting the render-function invocation of an event. -/
def evFrameCtx : Ev → Option FrameContext
  | .renderFrame ctx => some ctx
  | _ => none

/-- The sequence of render-function invocations of a trace. -/
def renderEvsOf (tr : List Ev) : List FrameContext :=
  tr.filterMap evFrameCtx

/-- Projection selecting the frame capture of an event. -/
def evCapture : Ev → Option ℕ
  | .captureFrame f => some f
  | _ => none

/-- The sequence of captured frame indices of a trace. -/
def capturesOf (tr : List Ev) : List ℕ :=
  tr.filterMap evCapture

/-- States of the task's (status, progress) pair along a mutation
sequence, starting from the freshly created task (pending, 0). -/
def taskStatesOf (us : List Upd) : List (TaskStatus × ℤ) :=
  us.scanl applyUpd (TaskStatus.pending, 0)

/-- Final (status, progress) pair after a mutation sequence. -/
def finalStateOf (us : List Upd) : TaskStatus × ℤ :=
  us.foldl applyUpd (TaskStatus.pending, 0)

/-- Monotonicity of the stored progress along a mutation sequence. -/
def progressMono (us : List Upd) : Prop :=
  List.Chain' (fun a b => a.2 ≤ b.2) (taskStatesOf us)

/-- The stored progress hits exactly 100 only in a terminal status. -/
def progress100OnlyTerminal (us : List Upd) : Prop :=
  ∀ s ∈ taskStatesOf us, s.2 = 100 →
    s.1 = TaskStatus.completed ∨ s.1 = TaskStatus.failed

/-- The mutation sequences a run can perform: the full trace, or — for a
failure not modelled by the environment (render-function error, capture
error, file-system error, …) — a prefix of the body's mutations followed
by the catch block's error `setTaskResult` and, when a timed-out encoder
is still running, its late progress reports (an abort before encoding
has no late reports: that is the `late = []` case). -/
def possibleUpdateTrace (p : RenderParams) (env : RenderEnv)
    (us : List Upd) : Prop :=
  us = updatesOf (performRenderTrace p env) ∨
  ∃ k late, k < (updatesOf (traceBody p env)).length + 1 ∧
    (late = [] ∨ late = updatesOf (postResultEvs p env)) ∧
    us = (updatesOf (traceBody p env)).take k ++ [Upd.resultUpd false] ++ late

/-- Sufficient fuel makes the batch loop visit exactly the frame indices
from `batchStart` up to `N - 1`. -/
theorem batchLoopAux_eq_range' (N : ℕ) (fuel batchStart : ℕ)
    (h : N ≤ batchStart + fuel) :
    batchLoopAux N fuel batchStart = List.range' batchStart (N - batchStart) := by
  induction fuel generalizing batchStart with
  | zero =>
      have h0 : N - batchStart = 0 := by omega
      simp [batchLoopAux, h0]
  | succ fuel ih =>
      by_cases hlt : batchStart < N
      · rw [batchLoopAux, if_pos hlt, ih (batchStart + 2) (by omega)]
        by_cases h2 : batchStart + 2 ≤ N
        · have hmin : min (batchStart + 2) N - batchStart = 2 := by omega
          rw [hmin]
          have happ := List.range'_append batchStart 2 (N - (batchStart + 2)) 1
          have e1 : batchStart + 1 * 2 = batchStart + 2 := by omega
          have e2 : N - (batchStart + 2) + 2 = N - batchStart := by omega
          rw [e1, e2] at happ
          simpa using happ
        · have hmin : min (batchStart + 2) N - batchStart = N - batchStart := by
            omega
          have h0 : N - (batchStart + 2) = 0 := by omega
          rw [hmin, h0]
          simp
      · rw [batchLoopAux, if_neg hlt]
        have h0 : N - batchStart = 0 := by omega
        simp [h0]

/-- The batch loop with `batchSize = 2` visits exactly the frame indices
`0, 1, …, N − 1` in order. -/
theorem batchLoop_eq_range (N : ℕ) : batchLoop N = List.range N := by
  rw [batchLoop, batchLoopAux_eq_range' N N 0 (by omega)]
  simp [List.range_eq_range']

@[simp]
theorem evUpd_update (u : Upd) : evUpd (Ev.update u) = some u := rfl

@[simp]
theorem evUpd_render (ctx : FrameContext) : evUpd (Ev.renderFrame ctx) = none := rfl

@[simp]
theorem evUpd_capture (f : ℕ) : evUpd (Ev.captureFrame f) = none := rfl

@[simp]
theorem evFrameCtx_update (u : Upd) : evFrameCtx (Ev.update u) = none := rfl

@[simp]
theorem evFrameCtx_render (ctx : FrameContext) :
    evFrameCtx (Ev.renderFrame ctx) = some ctx := rfl

@[simp]
theorem evFrameCtx_capture (f : ℕ) : evFrameCtx (Ev.captureFrame f) = none := rfl

@[simp]
theorem evCapture_update (u : Upd) : evCapture (Ev.update u) = none := rfl

@[simp]
theorem evCapture_render (ctx : FrameContext) :
    evCapture (Ev.renderFrame ctx) = none := rfl

@[simp]
theorem evCapture_capture (f : ℕ) : evCapture (Ev.captureFrame f) = some f := rfl

@[simp]
theorem updatesOf_nil : updatesOf [] = [] := rfl

@[simp]
theorem updatesOf_append (l1 l2 : List Ev) :
    updatesOf (l1 ++ l2) = updatesOf l1 ++ updatesOf l2 :=
  List.filterMap_append l1 l2 evUpd

@[simp]
theorem renderEvsOf_nil : renderEvsOf [] = [] := rfl

@[simp]
theorem renderEvsOf_append (l1 l2 : List Ev) :
    renderEvsOf (l1 ++ l2) = renderEvsOf l1 ++ renderEvsOf l2 :=
  List.filterMap_append l1 l2 evFrameCtx

@[simp]
theorem capturesOf_nil : capturesOf [] = [] := rfl

@[simp]
theorem capturesOf_append (l1 l2 : List Ev) :
    capturesOf (l1 ++ l2) = capturesOf l1 ++ capturesOf l2 :=
  List.filterMap_append l1 l2 evCapture

@[simp]
theorem updatesOf_cons (e : Ev) (tr : List Ev) :
    updatesOf (e :: tr) =
      match evUpd e with
      | none => updatesOf tr
      | some u => u :: updatesOf tr := by
  cases h : evUpd e <;> simp [updatesOf, List.filterMap_cons, h]

@[simp]
theorem renderEvsOf_cons (e : Ev) (tr : List Ev) :
    renderEvsOf (e :: tr) =
      match evFrameCtx e with
      | none => renderEvsOf tr
      | some ctx => ctx :: renderEvsOf tr := by
  cases h : evFrameCtx e <;> simp [renderEvsOf, List.filterMap_cons, h]

@[simp]
theorem capturesOf_cons (e : Ev) (tr : List Ev) :
    capturesOf (e :: tr) =
      match evCapture e with
      | none => capturesOf tr
      | some f => f :: capturesOf tr := by
  cases h : evCapture e <;> simp [capturesOf, List.filterMap_cons, h]

/-- Mutation-only event lists (such as the progress-event chunks)
contribute their mutations and nothing else. -/
theorem updatesOf_updateMap {α : Type} (g : α → Upd) (l : List α) :
    updatesOf (l.map (fun x => Ev.update (g x))) = l.map g := by
  induction l with
  | nil => rfl
  | cons a t ih => simp [ih]

theorem renderEvsOf_updateMap {α : Type} (g : α → Upd) (l : List α) :
    renderEvsOf (l.map (fun x => Ev.update (g x))) = [] := by
  induction l with
  | nil => rfl
  | cons a t ih => simp [ih]

theorem capturesOf_updateMap {α : Type} (g : α → Upd) (l : List α) :
    capturesOf (l.map (fun x => Ev.update (g x))) = [] := by
  induction l with
  | nil => rfl
  | cons a t ih => simp [ih]

@[simp]
theorem renderEvsOf_encodeEvs (env : RenderEnv) (base : ℤ) :
    renderEvsOf (encodeEvs env base) = [] :=
  renderEvsOf_updateMap _ _

@[simp]
theorem renderEvsOf_mixEvs (env : RenderEnv) (base : ℤ) :
    renderEvsOf (mixEvs env base) = [] :=
  renderEvsOf_updateMap _ _

@[simp]
theorem capturesOf_encodeEvs (env : RenderEnv) (base : ℤ) :
    capturesOf (encodeEvs env base) = [] :=
  capturesOf_updateMap _ _

@[simp]
theorem capturesOf_mixEvs (env : RenderEnv) (base : ℤ) :
    capturesOf (mixEvs env base) = [] :=
  capturesOf_updateMap _ _

@[simp]
theorem renderEvsOf_afterEncodeEvs (p : RenderParams) (env : RenderEnv)
    (base : ℤ) : renderEvsOf (afterEncodeEvs p env base) = [] := by
  unfold afterEncodeEvs
  split
  · split <;> simp
  · simp

@[simp]
theorem capturesOf_afterEncodeEvs (p : RenderParams) (env : RenderEnv)
    (base : ℤ) : capturesOf (afterEncodeEvs p env base) = [] := by
  unfold afterEncodeEvs
  split
  · split <;> simp
  · simp

@[simp]
theorem renderEvsOf_lateEncodeEvs (env : RenderEnv) (base : ℤ) :
    renderEvsOf (lateEncodeEvs env base) = [] :=
  renderEvsOf_updateMap _ _

@[simp]
theorem capturesOf_lateEncodeEvs (env : RenderEnv) (base : ℤ) :
    capturesOf (lateEncodeEvs env base) = [] :=
  capturesOf_updateMap _ _

@[simp]
theorem renderEvsOf_postResultEvs (p : RenderParams) (env : RenderEnv) :
    renderEvsOf (postResultEvs p env) = [] := by
  unfold postResultEvs
  split
  · simp
  · split <;> simp

@[simp]
theorem capturesOf_postResultEvs (p : RenderParams) (env : RenderEnv) :
    capturesOf (postResultEvs p env) = [] := by
  unfold postResultEvs
  split
  · simp
  · split <;> simp

/-- Every mutation after the final result is a progress update. -/
theorem postResultEvs_upds_shape (p : RenderParams) (env : RenderEnv) :
    ∀ u ∈ updatesOf (postResultEvs p env), ∃ v, u = Upd.progressUpd v := by
  intro u hu
  unfold postResultEvs at hu
  rcases hu2 : u with _ | _ | _ <;> try exact ⟨_, rfl⟩
  all_goals subst hu2
  all_goals revert hu
  all_goals split
  · intro hu; simp at hu
  · split
    · intro hu
      unfold lateEncodeEvs at hu
      rw [updatesOf_updateMap] at hu
      obtain ⟨q, _, hq⟩ := List.mem_map.mp hu
      exact absurd hq (by simp)
    · intro hu; simp at hu
  · intro hu; simp at hu
  · split
    · intro hu
      unfold lateEncodeEvs at hu
      rw [updatesOf_updateMap] at hu
      obtain ⟨q, _, hq⟩ := List.mem_map.mp hu
      exact absurd hq (by simp)
    · intro hu; simp at hu

/-- The frame loop's events, projected per index list. -/
theorem updatesOf_flatMap_frameEvs (p : RenderParams) (base : ℤ) (N : ℕ)
    (l : List ℕ) :
    updatesOf (l.flatMap (frameEvs p base N)) =
      l.map (fun (f : ℕ) =>
        Upd.progressUpd (base + ⌊(f : ℚ) / (N : ℚ) * 65⌋)) := by
  induction l with
  | nil => rfl
  | cons a t ih => simp [List.flatMap_cons, frameEvs, ih]

theorem renderEvsOf_flatMap_frameEvs (p : RenderParams) (base : ℤ) (N : ℕ)
    (l : List ℕ) :
    renderEvsOf (l.flatMap (frameEvs p base N)) =
      l.map (fun (f : ℕ) =>
        ({ time := (f : ℚ) / effFps p, frame := f, duration := p.duration,
           width := p.width, height := p.height } : FrameContext)) := by
  induction l with
  | nil => rfl
  | cons a t ih => simp [List.flatMap_cons, frameEvs, ih]

theorem capturesOf_flatMap_frameEvs (p : RenderParams) (base : ℤ) (N : ℕ)
    (l : List ℕ) :
    capturesOf (l.flatMap (frameEvs p base N)) = l := by
  induction l with
  | nil => rfl
  | cons a t ih => simp [List.flatMap_cons, frameEvs, ih]

/-- A list is non-empty exactly when `isEmpty` is false (the worker's
`audio && audio.length > 0` test). -/
theorem isEmpty_false_of_ne_nil {α : Type} {l : List α} (h : l ≠ []) :
    l.isEmpty = false := by
  cases l with
  | nil => exact absurd rfl h
  | cons a t => rfl

/-- Claim C2: when the job has audio tracks and validation fails, the run
performs only the processing-status update and the progress-5 update
before the error result: no render-function invocation and no frame
capture occurs, and the task ends failed. -/
theorem audioFailure_aborts_before_frames (p : RenderParams)
    (env : RenderEnv) (hA : p.audio ≠ []) (hV : env.audioOk = false) :
    performRenderTrace p env =
      [Ev.update (.statusUpd .processing (some 0)),
       Ev.update (.progressUpd 5),
       Ev.update (.resultUpd false)] ∧
    renderEvsOf (performRenderTrace p env) = [] ∧
    capturesOf (performRenderTrace p env) = [] ∧
    (finalStateOf (updatesOf (performRenderTrace p env))).1 =
      TaskStatus.failed := by
  have hne : p.audio.isEmpty = false := isEmpty_false_of_ne_nil hA
  have htr : performRenderTrace p env =
      [Ev.update (.statusUpd .processing (some 0)),
       Ev.update (.progressUpd 5),
       Ev.update (.resultUpd false)] := by
    simp [performRenderTrace, traceBody, traceSuccess, postResultEvs,
      hne, hV]
  refine ⟨htr, ?_, ?_, ?_⟩ <;>
    simp [htr, finalStateOf, updatesOf, applyUpd]

/-- Witness for C2 at a concrete input: a job with one audio track whose
validation fails. -/
theorem audioFailure_aborts_before_frames_witness :
    (({ sampleParams with
          audio := [{ url := "https://example.com/a.mp3", start := 0,
                      endTime := none, volume := 1 }] } : RenderParams).audio
        ≠ [] ∧
     (⟨false, none, [], true, [], []⟩ : RenderEnv).audioOk = false) ∧
    (finalStateOf (updatesOf (performRenderTrace
        { sampleParams with
            audio := [{ url := "https://example.com/a.mp3", start := 0,
                        endTime := none, volume := 1 }] }
        ⟨false, none, [], true, [], []⟩))).1 = TaskStatus.failed :=
  ⟨⟨by simp, rfl⟩,
   (audioFailure_aborts_before_frames _ _ (by simp) rfl).2.2.2⟩

/-- A run of progress updates never changes the status component. -/
theorem foldl_progressUpds_fst (l : List Upd)
    (h : ∀ u ∈ l, ∃ v, u = Upd.progressUpd v) (s : TaskStatus × ℤ) :
    (l.foldl applyUpd s).1 = s.1 := by
  induction l generalizing s with
  | nil => rfl
  | cons u t ih =>
      obtain ⟨v, huv⟩ := h u (List.mem_cons_self u t)
      rw [List.foldl_cons, ih (fun w hw => h w (List.mem_cons_of_mem u hw)),
        huv]
      obtain ⟨s1, s2⟩ := s
      rfl

/-- Claim C5: the encoder deadline is `max(30000, duration * 10000)`
milliseconds — at least 30 seconds, 10 seconds per second of video — and
an encoder still running at the deadline makes the encode step reject
with the timeout outcome and the whole job end failed instead of hanging. -/
theorem encoder_deadline_timeout_fails_job (p : RenderParams)
    (env : RenderEnv)
    (h : env.encodeFinish = none ∨
      ∃ t good, env.encodeFinish = some (t, good) ∧
        ffmpegTimeoutMs p.duration ≤ t) :
    encodeOutcome p.duration env = .timedOut ∧
    ffmpegTimeoutMs p.duration = max 30000 (p.duration * 10000) ∧
    (30000 : ℚ) ≤ ffmpegTimeoutMs p.duration ∧
    (finalStateOf (updatesOf (performRenderTrace p env))).1 =
      TaskStatus.failed := by
  have hout : encodeOutcome p.duration env = .timedOut := by
    rcases h with h | ⟨t, good, h, hle⟩
    · simp [encodeOutcome, h]
    · simp [encodeOutcome, h, not_lt.mpr hle]
  have hs : traceSuccess p env = false := by
    simp [traceSuccess, hout]
  refine ⟨hout, rfl, le_max_left _ _, ?_⟩
  unfold finalStateOf
  rw [performRenderTrace, updatesOf_append, List.foldl_append]
  rw [foldl_progressUpds_fst _ (postResultEvs_upds_shape p env)]
  simp [List.foldl_append, hs, applyUpd]

/-- Witness for C5 at a concrete input: an encoder that never finishes. -/
theorem encoder_deadline_timeout_fails_job_witness :
    ((⟨true, none, [], true, [], []⟩ : RenderEnv).encodeFinish = none ∨
      ∃ t good,
        (⟨true, none, [], true, [], []⟩ : RenderEnv).encodeFinish
          = some (t, good) ∧
        ffmpegTimeoutMs sampleParams.duration ≤ t) ∧
    (encodeOutcome sampleParams.duration ⟨true, none, [], true, [], []⟩
        = .timedOut ∧
     ffmpegTimeoutMs sampleParams.duration
        = max 30000 (sampleParams.duration * 10000) ∧
     (30000 : ℚ) ≤ ffmpegTimeoutMs sampleParams.duration ∧
     (finalStateOf (updatesOf (performRenderTrace sampleParams
        ⟨true, none, [], true, [], []⟩))).1 = TaskStatus.failed) :=
  ⟨Or.inl rfl,
   encoder_deadline_timeout_fails_job sampleParams _ (Or.inl rfl)⟩

/-- The render-function invocations and the captures of a full run whose
audio (if any) validated: exactly the frame indices `0 … N − 1` in
order, with `time = frame / fps`. -/
theorem renderEvs_of_trace (p : RenderParams) (env : RenderEnv)
    (hA : env.audioOk = true) :
    renderEvsOf (performRenderTrace p env) =
      (List.range (totalFrames p)).map (fun (f : ℕ) =>
        ({ time := (f : ℚ) / effFps p, frame := f, duration := p.duration,
           width := p.width, height := p.height } : FrameContext)) ∧
    capturesOf (performRenderTrace p env) = List.range (totalFrames p) := by
  have hmain : ∀ base,
      renderEvsOf (mainPhase p env base) =
        (List.range (totalFrames p)).map (fun (f : ℕ) =>
          ({ time := (f : ℚ) / effFps p, frame := f, duration := p.duration,
             width := p.width, height := p.height } : FrameContext)) ∧
      capturesOf (mainPhase p env base) = List.range (totalFrames p) := by
    intro base
    unfold mainPhase
    rw [batchLoop_eq_range]
    constructor
    · simp [renderEvsOf_flatMap_frameEvs, renderEvsOf_updateMap]
    · simp [capturesOf_flatMap_frameEvs, capturesOf_updateMap]
  by_cases hne : p.audio.isEmpty
  · constructor <;>
      simp [performRenderTrace, traceBody, hne, (hmain 0).1, (hmain 0).2]
  · simp only [Bool.not_eq_true] at hne
    constructor <;>
      simp [performRenderTrace, traceBody, hne, hA, (hmain 10).1, (hmain 10).2]

/-- Claim C3: for valid parameters (audio, if any, validated), the frame
loop invokes the render function exactly once per frame index
`0 … ceil(duration*fps) − 1`, in strictly increasing order, with the
context's `time` equal to `frame / fps`, and captures exactly those
frames; the number of produced frames is exactly `ceil(duration*fps)`. -/
theorem frameLoop_produces_exact_frames (p : RenderParams)
    (env : RenderEnv) (hv : validRenderParams p) (hA : env.audioOk = true) :
    renderEvsOf (performRenderTrace p env) =
      (List.range (totalFrames p)).map (fun (f : ℕ) =>
        ({ time := (f : ℚ) / effFps p, frame := f, duration := p.duration,
           width := p.width, height := p.height } : FrameContext)) ∧
    capturesOf (performRenderTrace p env) = List.range (totalFrames p) ∧
    (renderEvsOf (performRenderTrace p env)).length = totalFrames p ∧
    List.Chain' (· < ·)
      ((renderEvsOf (performRenderTrace p env)).map FrameContext.frame) := by
  obtain ⟨h1, h2⟩ := renderEvs_of_trace p env hA
  refine ⟨h1, h2, ?_, ?_⟩
  · simp [h1]
  · rw [h1, List.map_map]
    have : (FrameContext.frame ∘ fun (f : ℕ) =>
        ({ time := (f : ℚ) / effFps p, frame := f, duration := p.duration,
           width := p.width, height := p.height } : FrameContext)) = id := by
      funext f
      rfl
    rw [this, List.map_id]
    exact List.chain'_iff_pairwise.mpr (List.pairwise_lt_range _)

/-- Witness for C3 at a concrete input: an 800×600, 1-second, 1-fps job
with no audio. -/
theorem frameLoop_produces_exact_frames_witness :
    (validRenderParams sampleParams ∧
     (⟨true, some (0, true), [], true, [], []⟩ : RenderEnv).audioOk = true) ∧
    capturesOf (performRenderTrace sampleParams
        ⟨true, some (0, true), [], true, [], []⟩)
      = List.range (totalFrames sampleParams) := by
  have hv : validRenderParams sampleParams := by
    refine ⟨by norm_num [sampleParams], by norm_num [sampleParams],
      by norm_num [sampleParams], by decide, ?_, ?_⟩
    · intro f hf
      simp [sampleParams] at hf
      subst hf
      norm_num
    · intro t ht
      simp [sampleParams] at ht
  exact ⟨⟨hv, rfl⟩,
    (frameLoop_produces_exact_frames sampleParams _ hv rfl).2.1⟩

/-- Result of evaluating the render function in the vm sandbox: either a
bare markup string (the old format) or an object `{html, waitUntil?}`;
a `waitUntil` function is carried as its source text, matching the
serialisation `result.waitUntil.toString()`. -/
inductive RenderResult where
  | str (s : String)
  | obj (html : String) (waitUntil : Option String)
deriving DecidableEq, Repr

/-- The normalised shape `{html, waitUntilString}` the frame loop works
with (`renderResultRaw` in the route). -/
structure RenderResultRaw where
  html : String
  waitUntilString : Option String
deriving DecidableEq, Repr

/-- Normalisation of the render result: a bare string becomes
`{html: s, waitUntilString: null}`; an object keeps its html and
serialises `waitUntil` when present. -/
def normalizeRenderResult : RenderResult → RenderResultRaw
  | .str s => { html := s, waitUntilString := none }
  | .obj h w => { html := h, waitUntilString := w }

/-- Behaviour of the rendering surface during one frame: what
`DOMParser`-based extraction finds in the markup (`querySelector("div")`
and `querySelector("script")?.textContent`), whether the injected
content contains images, and whether a supplied readiness predicate
becomes true within the bounded `waitForFunction` timeout. -/
structure SurfaceEnv where
  divOf : String → Option String
  scriptOf : String → Option String
  hasImages : Bool
  predHoldsWithinTimeout : Bool

/-- Actions the frame loop performs against the rendering surface, in
order: clearing the body and appending the extracted div, executing the
extracted script block via `page.evaluate` (inside the page's own
evaluation context, not the host process), the image/network-idle waits,
the readiness wait, and the screenshot capture. -/
inductive FrameAction where
  | clearAndInject (divContent : Option String)
  | execScriptInPage (script : String)
  | imageWait
  | networkIdleWait
  | readinessWaitMet
  | readinessWaitTimedOut
  | capture
deriving DecidableEq, Repr

/-- The `page.waitForFunction` call on the readiness predicate: it
resolves when the predicate becomes true within the 25000 ms timeout and
rejects with a timeout error otherwise. -/
def waitForFunctionStep (holds : Bool) : Except String Unit :=
  if holds then .ok () else .error "Timeout"

/-- One frame's surface actions (lines 227–408 of the frame loop): clear
body and inject the extracted div; execute the extracted script block if
any; when images are present, wait for them and for network idle; when a
readiness predicate was supplied, poll it — a rejection of
`waitForFunctionStep` is caught, logged, and the loop continues; finally
capture the screenshot.  The function is total: no surface action makes
the frame fail. -/
def runFrameActions (senv : SurfaceEnv) (raw : RenderResultRaw) :
    List FrameAction :=
  FrameAction.clearAndInject (senv.divOf raw.html) ::
  ((match senv.scriptOf raw.html with
    | some s => [FrameAction.execScriptInPage s]
    | none => []) ++
   (if senv.hasImages then
      [FrameAction.imageWait, FrameAction.networkIdleWait]
    else []) ++
   (match raw.waitUntilString with
    | some _ =>
        (match waitForFunctionStep senv.predHoldsWithinTimeout with
         | .ok _ => [FrameAction.readinessWaitMet]
         | .error _ => [FrameAction.readinessWaitTimedOut])
    | none => []) ++
   [FrameAction.capture])

/-- Whether an action is the readiness wait. -/
def isReadinessAction : FrameAction → Bool
  | .readinessWaitMet => true
  | .readinessWaitTimedOut => true
  | _ => false

/-- The script executed by an action, if it is the script-execution
step. -/
def scriptOfAction : FrameAction → Option String
  | .execScriptInPage s => some s
  | _ => none

/-- Claim C6: a render function returning the bare string `s` is
normalised exactly like the object result `{markup: s}` with no
readiness predicate — both give `{html := s, waitUntilString := none}` —
and in both cases the frame run performs no readiness-wait step, for
every surface behaviour. -/
theorem bareString_equiv_objectResult (s : String) :
    normalizeRenderResult (.str s) = normalizeRenderResult (.obj s none) ∧
    normalizeRenderResult (.str s) = { html := s, waitUntilString := none } ∧
    ∀ senv : SurfaceEnv,
      (runFrameActions senv (normalizeRenderResult (.str s))).filter
          isReadinessAction = [] ∧
      (runFrameActions senv (normalizeRenderResult (.obj s none))).filter
          isReadinessAction = [] := by
  refine ⟨rfl, rfl, fun senv => ?_⟩
  have h : (runFrameActions senv
      { html := s, waitUntilString := none }).filter isReadinessAction = [] := by
    cases hs : senv.scriptOf s <;> cases hi : senv.hasImages <;>
      simp [runFrameActions, isReadinessAction, hs, hi, List.filter_append]
  exact ⟨h, h⟩

/-- Claim C7: for every frame, the first surface action clears the body
and injects the extracted markup, the last action is the capture (so the
clear/inject precedes the capture), and the script blocks executed in
the page's evaluation context are exactly the script extracted from the
markup (one when present, none otherwise). -/
theorem frame_inject_script_capture_order (senv : SurfaceEnv)
    (raw : RenderResultRaw) :
    (runFrameActions senv raw).head? =
      some (FrameAction.clearAndInject (senv.divOf raw.html)) ∧
    (runFrameActions senv raw).getLast? = some FrameAction.capture ∧
    (runFrameActions senv raw).filterMap scriptOfAction =
      (senv.scriptOf raw.html).toList := by
  refine ⟨rfl, ?_, ?_⟩
  · rw [runFrameActions]
    rw [show FrameAction.clearAndInject (senv.divOf raw.html) ::
        ((match senv.scriptOf raw.html with
          | some s => [FrameAction.execScriptInPage s]
          | none => []) ++
         (if senv.hasImages then
            [FrameAction.imageWait, FrameAction.networkIdleWait]
          else []) ++
         (match raw.waitUntilString with
          | some _ =>
              (match waitForFunctionStep senv.predHoldsWithinTimeout with
               | .ok _ => [FrameAction.readinessWaitMet]
               | .error _ => [FrameAction.readinessWaitTimedOut])
          | none => []) ++
         [FrameAction.capture]) =
        (FrameAction.clearAndInject (senv.divOf raw.html) ::
         ((match senv.scriptOf raw.html with
           | some s => [FrameAction.execScriptInPage s]
           | none => []) ++
          (if senv.hasImages then
             [FrameAction.imageWait, FrameAction.networkIdleWait]
           else []) ++
          (match raw.waitUntilString with
           | some _ =>
               (match waitForFunctionStep senv.predHoldsWithinTimeout with
                | .ok _ => [FrameAction.readinessWaitMet]
                | .error _ => [FrameAction.readinessWaitTimedOut])
           | none => []))) ++ [FrameAction.capture] from by simp]
    exact List.getLast?_concat _
  · cases hs : senv.scriptOf raw.html <;> cases hi : senv.hasImages <;>
      cases hw : raw.waitUntilString <;>
      cases hp : senv.predHoldsWithinTimeout <;>
      simp [runFrameActions, scriptOfAction, waitForFunctionStep,
        hs, hi, hw, hp, List.filterMap_append]

/-- Claim C8: when a readiness predicate is supplied and never becomes
true within the bounded timeout, the `waitForFunction` rejection is
caught (the run still performs the timed-out readiness step followed by
the capture as its final action), so the frame is captured and no error
propagates from the readiness wait. -/
theorem readiness_timeout_soft_fail (senv : SurfaceEnv)
    (raw : RenderResultRaw) (w : String)
    (hw : raw.waitUntilString = some w)
    (hp : senv.predHoldsWithinTimeout = false) :
    waitForFunctionStep senv.predHoldsWithinTimeout = .error "Timeout" ∧
    FrameAction.readinessWaitTimedOut ∈ runFrameActions senv raw ∧
    (runFrameActions senv raw).getLast? = some FrameAction.capture := by
  refine ⟨by simp [waitForFunctionStep, hp], ?_,
    (frame_inject_script_capture_order senv raw).2.1⟩
  simp [runFrameActions, hw, hp, waitForFunctionStep]

/-- Witness for C8 at a concrete input: a frame whose predicate never
becomes true. -/
theorem readiness_timeout_soft_fail_witness :
    ((⟨"", some "() => false"⟩ : RenderResultRaw).waitUntilString
        = some "() => false" ∧
     (⟨fun _ => none, fun _ => none, false, false⟩ : SurfaceEnv).predHoldsWithinTimeout = false) ∧
    (FrameAction.readinessWaitTimedOut ∈
      runFrameActions ⟨fun _ => none, fun _ => none, false, false⟩
        ⟨"", some "() => false"⟩ ∧
     (runFrameActions ⟨fun _ => none, fun _ => none, false, false⟩
        ⟨"", some "() => false"⟩).getLast? = some FrameAction.capture) :=
  ⟨⟨rfl, rfl⟩,
   (readiness_timeout_soft_fail _ _ "() => false" rfl rfl).2⟩

/-- A validated audio track (`ValidatedAudioTrack` in
`audio-validation.ts`): the spec fields plus the local file path, the
probed duration, and the validity flag. -/
structure ValidatedAudioTrack where
  url : String
  start : ℚ
  endTime : Option ℚ
  volume : ℚ
  localPath : String
  duration : ℚ
  isValid : Bool
deriving DecidableEq, Repr

/-- JavaScript `Math.round`: round half toward positive infinity. -/
def jsRound (q : ℚ) : ℤ :=
  ⌊q + 1 / 2⌋

/-- Per-track filter string built by the mixing loop (lines 574–595 of
the route): the input label `[i+1:a]`; `volume=<v>` unless the volume is
1, in which case the pass-through `anull`; `,adelay=<round(start*1000)>:all=1`
when start > 0; `,atrim=duration=<end − start>` when an end is present;
the output label `[a<i>]`.  `numStr` abstracts JavaScript's
number-to-string conversion used in the template literals. -/
def audioFilterFor (numStr : ℚ → String) (i : ℕ)
    (t : ValidatedAudioTrack) : String :=
  let f0 := "[" ++ toString (i + 1) ++ ":a]"
  let f1 := f0 ++ (if t.volume != 1 then "volume=" ++ numStr t.volume
                   else "anull")
  let f2 := f1 ++ (if 0 < t.start then
                    ",adelay=" ++ toString (jsRound (t.start * 1000)) ++
                      ":all=1"
                   else "")
  let f3 := f2 ++ (match t.endTime with
                   | some e => ",atrim=duration=" ++ numStr (e - t.start)
                   | none => "")
  f3 ++ "[a" ++ toString i ++ "]"

/-- The full complex filter built by the mixing step: the per-track
filters, the `amix=inputs=<N>:duration=first[mixedaudio]` combination of
all `[a<i>]` streams, joined with `;`, followed by the final hard trim
`[mixedaudio]atrim=duration=<job duration>[finalaudio]`. -/
def buildComplexFilter (numStr : ℚ → String)
    (tracks : List ValidatedAudioTrack) (duration : ℚ) : String :=
  let audioFilters :=
    (List.range tracks.length).zipWith (audioFilterFor numStr) tracks
  let audioInputs :=
    (List.range tracks.length).map (fun i => "[a" ++ toString i ++ "]")
  let mixFilter :=
    String.join audioInputs ++ "amix=inputs=" ++ toString tracks.length ++
      ":duration=first[mixedaudio]"
  String.intercalate ";" (audioFilters ++ [mixFilter]) ++
    ";[mixedaudio]atrim=duration=" ++ numStr duration ++ "[finalaudio]"

/-- Per-track filter as the specification words it: the track's volume
scalar with pass-through exactly when the volume is 1; then, if start is
positive, a delay of round(start × 1000) milliseconds; then, if an end
is present, a trim to duration end − start. -/
def specTrackFilter (numStr : ℚ → String) (i : ℕ)
    (t : ValidatedAudioTrack) : String :=
  "[" ++ toString (i + 1) ++ ":a]" ++
  (if t.volume = 1 then "anull" else "volume=" ++ numStr t.volume) ++
  (if 0 < t.start then
    ",adelay=" ++ toString (jsRound (t.start * 1000)) ++ ":all=1"
   else "") ++
  (match t.endTime with
   | some e => ",atrim=duration=" ++ numStr (e - t.start)
   | none => "") ++
  "[a" ++ toString i ++ "]"

/-- The complex filter as the specification words it: the per-track
filtered streams combined by a mix whose output duration follows the
first input, and the mixed stream hard-trimmed to the job's total
duration. -/
def specComplexFilter (numStr : ℚ → String)
    (tracks : List ValidatedAudioTrack) (duration : ℚ) : String :=
  String.intercalate ";"
    ((List.range tracks.length).zipWith (specTrackFilter numStr) tracks ++
     [String.join
        ((List.range tracks.length).map
          (fun i => "[a" ++ toString i ++ "]")) ++
      "amix=inputs=" ++ toString tracks.length ++
      ":duration=first[mixedaudio]"]) ++
  ";[mixedaudio]atrim=duration=" ++ numStr duration ++ "[finalaudio]"

/-- The two per-track constructions coincide. -/
theorem audioFilterFor_eq_specTrackFilter (numStr : ℚ → String) :
    audioFilterFor numStr = specTrackFilter numStr := by
  funext i t
  unfold audioFilterFor specTrackFilter
  by_cases hv : t.volume = 1
  · simp [hv]
  · have : (t.volume != 1) = true := by
      simp [bne_iff_ne, hv]
    simp [hv, this]

/-- Duration semantics of the constructed filter graph, following the
documented behaviour of each ffmpeg filter used: `volume`/`anull` keep
the duration, `adelay` prepends `start` seconds of delay, and
`atrim=duration=d` cuts the stream to at most `d`. -/
def filteredTrackDuration (t : ValidatedAudioTrack) : ℚ :=
  let afterVolume := t.duration
  let afterDelay := if 0 < t.start then afterVolume + t.start
                    else afterVolume
  match t.endTime with
  | some e => min afterDelay (e - t.start)
  | none => afterDelay

/-- Duration of the `amix=duration=first` output: it follows the first
input stream. -/
def mixedAudioDuration (tracks : List ValidatedAudioTrack) : ℚ :=
  match tracks with
  | [] => 0
  | t :: _ => filteredTrackDuration t

/-- Duration of `[finalaudio]` after the closing
`atrim=duration=<job duration>`. -/
def finalAudioDuration (tracks : List ValidatedAudioTrack)
    (duration : ℚ) : ℚ :=
  min (mixedAudioDuration tracks) duration

/-- Claim C4: for a non-empty validated track list, the complex filter
the mixer builds is exactly the per-track volume/delay/trim chain, the
first-input-duration mix, and the final hard trim described by the
specification, and consequently the final audio stream's duration never
exceeds the job's video duration. -/
theorem mixer_filter_matches_spec_and_bounds_duration
    (numStr : ℚ → String) (tracks : List ValidatedAudioTrack)
    (duration : ℚ) (h : tracks ≠ []) :
    buildComplexFilter numStr tracks duration =
      specComplexFilter numStr tracks duration ∧
    finalAudioDuration tracks duration ≤ duration := by
  refine ⟨?_, min_le_right _ _⟩
  unfold buildComplexFilter specComplexFilter
  rw [audioFilterFor_eq_specTrackFilter]

/-- Witness for C4 at a concrete input: one track with volume 0.8,
start 0, end 2 on a 3-second job. -/
theorem mixer_filter_matches_spec_witness :
    (([{ url := "https://example.com/a.mp3", start := 0,
         endTime := some 2, volume := 8 / 10,
         localPath := "/tmp/a.mp3", duration := 10, isValid := true }] :
       List ValidatedAudioTrack) ≠ []) ∧
    (buildComplexFilter (fun _ => "v")
        [{ url := "https://example.com/a.mp3", start := 0,
           endTime := some 2, volume := 8 / 10,
           localPath := "/tmp/a.mp3", duration := 10, isValid := true }] 3 =
      specComplexFilter (fun _ => "v")
        [{ url := "https://example.com/a.mp3", start := 0,
           endTime := some 2, volume := 8 / 10,
           localPath := "/tmp/a.mp3", duration := 10, isValid := true }] 3 ∧
     finalAudioDuration
        [{ url := "https://example.com/a.mp3", start := 0,
           endTime := some 2, volume := 8 / 10,
           localPath := "/tmp/a.mp3", duration := 10, isValid := true }] 3
       ≤ 3) :=
  ⟨by simp, mixer_filter_matches_spec_and_bounds_duration _ _ 3 (by simp)⟩

/-- Clamping performed by `updateTaskProgress`:
`Math.min(100, Math.max(0, progress))`. -/
def clampProgress (v : ℤ) : ℤ :=
  min 100 (max 0 v)

/-- The progress stored by a mutation, given that `updateTaskStatus` is
always called with an explicit progress argument in this worker: the
status update stores its argument unclamped, a progress update stores
the clamped argument, and a result stores 100. -/
def postProgress : Upd → ℤ
  | .statusUpd _ q => q.getD 0
  | .progressUpd v => clampProgress v
  | .resultUpd _ => 100

@[simp]
theorem postProgress_progressUpd (v : ℤ) :
    postProgress (.progressUpd v) = clampProgress v := rfl

@[simp]
theorem postProgress_resultUpd (b : Bool) :
    postProgress (.resultUpd b) = 100 := rfl

/-- A mutation whose stored progress does not depend on the previous
state: every status update carries an explicit progress argument. -/
def determinedUpd : Upd → Prop
  | .statusUpd _ q => q.isSome
  | _ => True

/-- A mutation that cannot leave a non-terminal task at progress 100. -/
def safeUpd : Upd → Prop
  | .statusUpd _ q => ∃ v, q = some v ∧ v < 100
  | .progressUpd v => v < 100
  | .resultUpd _ => True

/-- For determined mutation sequences, the stored progress along the
scan is exactly the per-mutation stored value. -/
theorem scanl_snd_eq (us : List Upd) (s : TaskStatus × ℤ)
    (h : ∀ u ∈ us, determinedUpd u) :
    (us.scanl applyUpd s).map Prod.snd = s.2 :: us.map postProgress := by
  induction us generalizing s with
  | nil => simp
  | cons u t ih =>
      rw [List.scanl_cons]
      have hu : determinedUpd u := h u (List.mem_cons_self u t)
      have hsnd : (applyUpd s u).2 = postProgress u := by
        obtain ⟨s1, s2⟩ := s
        cases u with
        | statusUpd st q =>
            obtain ⟨v, hv⟩ := Option.isSome_iff_exists.mp hu
            subst hv
            simp [applyUpd, postProgress]
        | progressUpd v => simp [applyUpd, postProgress, clampProgress]
        | resultUpd ok => simp [applyUpd, postProgress]
      have ihs := ih (applyUpd s u) (fun v hv => h v (List.mem_cons_of_mem u hv))
      simp [ihs, hsnd]

/-- Safe mutation sequences never show progress 100 on a non-terminal
status: the only mutation that stores 100 is `setTaskResult`, which also
forces a terminal status. -/
theorem states_100_terminal (us : List Upd) (s : TaskStatus × ℤ)
    (hs : s.2 = 100 → s.1 = TaskStatus.completed ∨ s.1 = TaskStatus.failed)
    (h : ∀ u ∈ us, safeUpd u) :
    ∀ st ∈ us.scanl applyUpd s, st.2 = 100 →
      st.1 = TaskStatus.completed ∨ st.1 = TaskStatus.failed := by
  induction us generalizing s with
  | nil =>
      intro st hst
      simp at hst
      subst hst
      exact hs
  | cons u t ih =>
      intro st hst
      rw [List.scanl_cons] at hst
      rcases (List.mem_append.mp hst) with hst | hst
      · simp at hst
        subst hst
        exact hs
      · refine ih (applyUpd s u) ?_ (fun v hv => h v (List.mem_cons_of_mem u hv)) st hst
        have hu : safeUpd u := h u (List.mem_cons_self u t)
        obtain ⟨s1, s2⟩ := s
        cases u with
        | statusUpd st2 q =>
            obtain ⟨v, hq, hlt⟩ := hu
            subst hq
            intro h100
            simp [applyUpd] at h100
            omega
        | progressUpd v =>
            intro h100
            simp [applyUpd] at h100
            have hlt : v < 100 := hu
            omega
        | resultUpd ok =>
            intro _
            cases ok <;> simp [applyUpd]

/-- Sorted argument lists bounded between `lo` and `hi`. -/
def GoodArgs (lo hi : ℤ) (l : List ℤ) : Prop :=
  l.Pairwise (· ≤ ·) ∧ ∀ x ∈ l, lo ≤ x ∧ x ≤ hi

theorem goodArgs_nil (lo hi : ℤ) : GoodArgs lo hi [] :=
  ⟨List.Pairwise.nil, by simp⟩

theorem goodArgs_singleton (v lo hi : ℤ) (h1 : lo ≤ v) (h2 : v ≤ hi) :
    GoodArgs lo hi [v] :=
  ⟨List.pairwise_singleton _ _, by simp [h1, h2]⟩

theorem goodArgs_append {lo m hi : ℤ} {l1 l2 : List ℤ}
    (h1 : GoodArgs lo m l1) (h2 : GoodArgs m hi l2)
    (hlo : lo ≤ m) (hhi : m ≤ hi) : GoodArgs lo hi (l1 ++ l2) := by
  refine ⟨List.pairwise_append.mpr ⟨h1.1, h2.1, ?_⟩, ?_⟩
  · intro a ha b hb
    exact le_trans (h1.2 a ha).2 (h2.2 b hb).1
  · intro x hx
    rcases List.mem_append.mp hx with hx | hx
    · exact ⟨(h1.2 x hx).1, le_trans (h1.2 x hx).2 hhi⟩
    · exact ⟨le_trans hlo (h2.2 x hx).1, (h2.2 x hx).2⟩

theorem goodArgs_cons {lo hi : ℤ} {l : List ℤ}
    (h : GoodArgs lo hi l) (v lo' : ℤ)
    (h1 : lo' ≤ v) (h2 : v ≤ lo) (h3 : lo ≤ hi) :
    GoodArgs lo' hi (v :: l) := by
  refine ⟨List.pairwise_cons.mpr ⟨?_, h.1⟩, ?_⟩
  · intro x hx
    exact le_trans h2 (h.2 x hx).1
  · intro x hx
    rcases List.mem_cons.mp hx with rfl | hx
    · exact ⟨h1, le_trans h2 h3⟩
    · exact ⟨le_trans (le_trans h1 h2) (h.2 x hx).1, (h.2 x hx).2⟩

theorem goodArgs_weaken {lo hi lo' hi' : ℤ} {l : List ℤ}
    (h : GoodArgs lo hi l) (h1 : lo' ≤ lo) (h2 : hi ≤ hi') :
    GoodArgs lo' hi' l :=
  ⟨h.1, fun x hx => ⟨le_trans h1 (h.2 x hx).1, le_trans (h.2 x hx).2 h2⟩⟩

/-- The frame-loop progress arguments are sorted within
`[base, base + 64]` once stored: `Math.floor((frame / totalFrames) * 65)`
lies in `[0, 64]` for `frame < totalFrames`. -/
theorem frameArgs_good (base : ℤ) (N : ℕ) (h0 : 0 ≤ base)
    (h1 : base + 64 ≤ 99) :
    GoodArgs base (base + 64)
      ((List.range N).map
        (fun (f : ℕ) => clampProgress (base + ⌊(f : ℚ) / (N : ℚ) * 65⌋))) := by
  rcases Nat.eq_zero_or_pos N with hN | hN
  · subst hN
    simp [goodArgs_nil]
  have hNQ : (0 : ℚ) < (N : ℚ) := by exact_mod_cast hN
  constructor
  · refine List.pairwise_map.mpr ?_
    refine (List.pairwise_lt_range N).imp ?_
    intro a b hab
    have hcast : (a : ℚ) ≤ (b : ℚ) := by exact_mod_cast hab.le
    have hdiv : (a : ℚ) / (N : ℚ) * 65 ≤ (b : ℚ) / (N : ℚ) * 65 := by
      have := (div_le_div_iff_of_pos_right hNQ).mpr hcast
      nlinarith
    have hfl := Int.floor_le_floor hdiv
    unfold clampProgress
    omega
  · intro x hx
    obtain ⟨f, hf, rfl⟩ := List.mem_map.mp hx
    have hfN : f < N := List.mem_range.mp hf
    have hge : (0 : ℤ) ≤ ⌊(f : ℚ) / (N : ℚ) * 65⌋ := by
      refine Int.floor_nonneg.mpr ?_
      positivity
    have hle : ⌊(f : ℚ) / (N : ℚ) * 65⌋ ≤ 64 := by
      have hfq : (f : ℚ) < (N : ℚ) := by exact_mod_cast hfN
      have hq1 : (f : ℚ) / (N : ℚ) < 1 := (div_lt_one hNQ).mpr hfq
      have hlt : (f : ℚ) / (N : ℚ) * 65 < 65 := by nlinarith
      have := Int.floor_lt.mpr (by push_cast; linarith :
        (f : ℚ) / (N : ℚ) * 65 < ((65 : ℤ) : ℚ))
      omega
    unfold clampProgress
    omega

/-- The encoder progress arguments are sorted within
`[base + 65, base + 85]` for percent reports in `[0, 100]`. -/
theorem encArgs_good (base : ℤ) (ps : List ℚ) (h0 : 0 ≤ base)
    (h85 : base + 85 ≤ 99) (hchain : ps.Pairwise (· ≤ ·))
    (hB : ∀ q ∈ ps, 0 ≤ q ∧ q ≤ 100) :
    GoodArgs (base + 65) (base + 85)
      ((ps.filter (fun q => q != 0)).map
        (fun q => clampProgress (encodeProgressVal base q))) := by
  constructor
  · refine List.pairwise_map.mpr ?_
    refine (hchain.filter _).imp ?_
    intro a b hab
    have : (base : ℚ) + 65 + a / 100 * 20 ≤ (base : ℚ) + 65 + b / 100 * 20 := by
      nlinarith
    have := Int.floor_le_floor this
    unfold clampProgress encodeProgressVal at *
    omega
  · intro x hx
    obtain ⟨q, hq, rfl⟩ := List.mem_map.mp hx
    have hq2 := hB q (List.mem_of_mem_filter hq)
    have hge : base + 65 ≤ encodeProgressVal base q := by
      refine Int.le_floor.mpr ?_
      push_cast
      nlinarith [hq2.1]
    have hle : encodeProgressVal base q ≤ base + 85 := by
      have hx85 : (base : ℚ) + 65 + q / 100 * 20 ≤ ((base + 85 : ℤ) : ℚ) := by
        push_cast
        nlinarith [hq2.2]
      have := Int.floor_le_floor hx85
      rw [Int.floor_intCast] at this
      exact this
    unfold clampProgress encodeProgressVal at *
    omega

/-- The mixing progress arguments are sorted within `[base + 85, 99]`
for percent reports in `[0, 100)` and `base ≤ 10`: the stored value
stays strictly below 100. -/
theorem mixArgs_good (base : ℤ) (ps : List ℚ) (h0 : 0 ≤ base)
    (h10 : base ≤ 10) (hchain : ps.Pairwise (· ≤ ·))
    (hB : ∀ q ∈ ps, 0 ≤ q ∧ q < 100) :
    GoodArgs (base + 85) 99
      ((ps.filter (fun q => q != 0)).map
        (fun q => clampProgress (mixProgressVal base q))) := by
  constructor
  · refine List.pairwise_map.mpr ?_
    refine (hchain.filter _).imp ?_
    intro a b hab
    have : (base : ℚ) + 85 + a / 100 * 5 ≤ (base : ℚ) + 85 + b / 100 * 5 := by
      nlinarith
    have := Int.floor_le_floor this
    unfold clampProgress mixProgressVal at *
    omega
  · intro x hx
    obtain ⟨q, hq, rfl⟩ := List.mem_map.mp hx
    have hq2 := hB q (List.mem_of_mem_filter hq)
    have hge : base + 85 ≤ mixProgressVal base q := by
      refine Int.le_floor.mpr ?_
      push_cast
      nlinarith [hq2.1]
    have hle : mixProgressVal base q ≤ 99 := by
      have hlt : (base : ℚ) + 85 + q / 100 * 5 < ((100 : ℤ) : ℚ) := by
        push_cast
        have : (base : ℚ) ≤ 10 := by exact_mod_cast h10
        nlinarith [hq2.2]
      have := Int.floor_lt.mpr hlt
      unfold mixProgressVal
      omega
    unfold clampProgress mixProgressVal at *
    omega

/-- Every mutation performed by the main phase is a progress update. -/
theorem mainPhase_upds_shape (p : RenderParams) (env : RenderEnv)
    (base : ℤ) :
    ∀ u ∈ updatesOf (mainPhase p env base), ∃ v, u = Upd.progressUpd v := by
  intro u hu
  unfold mainPhase at hu
  rw [updatesOf_append, updatesOf_append, updatesOf_append] at hu
  rcases List.mem_append.mp hu with hu | hu
  · rcases List.mem_append.mp hu with hu | hu
    · rcases List.mem_append.mp hu with hu | hu
      · rw [updatesOf_flatMap_frameEvs] at hu
        obtain ⟨f, _, rfl⟩ := List.mem_map.mp hu
        exact ⟨_, rfl⟩
      · simp at hu
        exact ⟨_, hu⟩
    · unfold encodeEvs at hu
      rw [updatesOf_updateMap] at hu
      obtain ⟨q, _, rfl⟩ := List.mem_map.mp hu
      exact ⟨_, rfl⟩
  · unfold afterEncodeEvs at hu
    by_cases hout : encodeOutcome p.duration env = .ok
    · rw [if_pos hout] at hu
      simp at hu
      rcases hu with rfl | hu
      · exact ⟨_, rfl⟩
      · by_cases hA : p.audio = []
        · rw [if_pos hA] at hu
          simp at hu
        · rw [if_neg hA] at hu
          unfold mixEvs at hu
          rw [updatesOf_updateMap] at hu
          obtain ⟨q, _, rfl⟩ := List.mem_map.mp hu
          exact ⟨_, rfl⟩
    · rw [if_neg hout] at hu
      simp at hu

/-- The main phase's stored progress arguments are sorted within
`[base, 99]`. -/
theorem mainPhase_args_good (p : RenderParams) (env : RenderEnv)
    (base : ℤ) (hbase : base = 0 ∨ base = 10)
    (hEncP : env.encodePercents.Pairwise (· ≤ ·))
    (hEncB : ∀ q ∈ env.encodePercents, 0 ≤ q ∧ q ≤ 100)
    (hMixP : env.mixPercents.Pairwise (· ≤ ·))
    (hMixB : ∀ q ∈ env.mixPercents, 0 ≤ q ∧ q < 100) :
    GoodArgs base 99 ((updatesOf (mainPhase p env base)).map postProgress) := by
  have hb0 : 0 ≤ base := by rcases hbase with rfl | rfl <;> norm_num
  have hb10 : base ≤ 10 := by rcases hbase with rfl | rfl <;> norm_num
  unfold mainPhase
  rw [batchLoop_eq_range, updatesOf_append, updatesOf_append,
    updatesOf_append, List.map_append, List.map_append, List.map_append]
  refine goodArgs_append (m := base + 85) ?_ ?_ (by omega) (by omega)
  · refine goodArgs_append (m := base + 65) ?_ ?_ (by omega) (by omega)
    · refine goodArgs_append (m := base + 64) ?_ ?_ (by omega) (by omega)
      · rw [updatesOf_flatMap_frameEvs, List.map_map]
        exact frameArgs_good base (totalFrames p) hb0 (by omega)
      · have hcl : clampProgress (base + 65) = base + 65 := by
          unfold clampProgress
          omega
        have heq : (updatesOf [Ev.update (.progressUpd (base + 65))]).map
            postProgress = [clampProgress (base + 65)] := rfl
        rw [heq, hcl]
        exact goodArgs_singleton _ _ _ (by omega) (by omega)
    · unfold encodeEvs
      rw [updatesOf_updateMap, List.map_map]
      exact encArgs_good base _ hb0 (by omega) hEncP hEncB
  · unfold afterEncodeEvs
    have hcl : clampProgress (base + 85) = base + 85 := by
      unfold clampProgress
      omega
    by_cases hout : encodeOutcome p.duration env = .ok
    · rw [if_pos hout]
      by_cases hA : p.audio.isEmpty
      · simp only [hA, Bool.not_true, Bool.false_eq_true, if_false]
        have heq : (updatesOf [Ev.update (.progressUpd (base + 85))]).map
            postProgress = [clampProgress (base + 85)] := rfl
        rw [heq, hcl]
        exact goodArgs_singleton _ _ _ (by omega) (by omega)
      · simp only [hA, Bool.not_false, if_true]
        have heq : (updatesOf (Ev.update (.progressUpd (base + 85)) ::
            mixEvs env base)).map postProgress =
            clampProgress (base + 85) ::
              (updatesOf (mixEvs env base)).map postProgress := rfl
        rw [heq, hcl]
        have hmix : GoodArgs (base + 85) 99
            ((updatesOf (mixEvs env base)).map postProgress) := by
          unfold mixEvs
          rw [updatesOf_updateMap, List.map_map]
          exact mixArgs_good base _ hb0 hb10 hMixP hMixB
        exact goodArgs_cons hmix _ _ (by omega) (by omega) (by omega)
    · rw [if_neg hout]
      exact goodArgs_nil _ _

@[simp]
theorem updatesOf_cons_update (u : Upd) (tr : List Ev) :
    updatesOf (Ev.update u :: tr) = u :: updatesOf tr := rfl

@[simp]
theorem postProgress_statusUpd (s : TaskStatus) (q : Option ℤ) :
    postProgress (.statusUpd s q) = q.getD 0 := rfl

/-- The body's mutation sequence, by branch. -/
theorem updatesOf_traceBody (p : RenderParams) (env : RenderEnv) :
    updatesOf (traceBody p env) =
      Upd.statusUpd .processing (some 0) ::
      (if p.audio.isEmpty then updatesOf (mainPhase p env 0)
       else Upd.progressUpd 5 ::
         (if env.audioOk then
            Upd.progressUpd 10 :: updatesOf (mainPhase p env 10)
          else [])) := by
  unfold traceBody
  cases hb : p.audio.isEmpty <;> simp [hb, apply_ite updatesOf]

/-- Every mutation the body performs is the initial processing-status
update (with explicit progress 0) or a progress update. -/
theorem traceBody_upds_shape (p : RenderParams) (env : RenderEnv) :
    ∀ u ∈ updatesOf (traceBody p env),
      u = Upd.statusUpd .processing (some 0) ∨ ∃ v, u = Upd.progressUpd v := by
  intro u hu
  rw [updatesOf_traceBody] at hu
  rcases List.mem_cons.mp hu with rfl | hu
  · exact Or.inl rfl
  · right
    by_cases hb : p.audio.isEmpty
    · rw [if_pos hb] at hu
      exact mainPhase_upds_shape p env 0 u hu
    · rw [if_neg hb] at hu
      rcases List.mem_cons.mp hu with rfl | hu
      · exact ⟨_, rfl⟩
      · by_cases hk : env.audioOk
        · rw [if_pos hk] at hu
          rcases List.mem_cons.mp hu with rfl | hu
          · exact ⟨_, rfl⟩
          · exact mainPhase_upds_shape p env 10 u hu
        · rw [if_neg hk] at hu
          simp at hu

/-- The body's stored progress arguments are sorted within `[0, 99]`. -/
theorem traceBody_args_good (p : RenderParams) (env : RenderEnv)
    (hEncP : env.encodePercents.Pairwise (· ≤ ·))
    (hEncB : ∀ q ∈ env.encodePercents, 0 ≤ q ∧ q ≤ 100)
    (hMixP : env.mixPercents.Pairwise (· ≤ ·))
    (hMixB : ∀ q ∈ env.mixPercents, 0 ≤ q ∧ q < 100) :
    GoodArgs 0 99 ((updatesOf (traceBody p env)).map postProgress) := by
  rw [updatesOf_traceBody]
  by_cases hb : p.audio.isEmpty
  · rw [if_pos hb]
    simp only [List.map_cons, postProgress_statusUpd, Option.getD_some]
    exact goodArgs_cons
      (mainPhase_args_good p env 0 (Or.inl rfl) hEncP hEncB hMixP hMixB)
      0 0 le_rfl le_rfl (by norm_num)
  · rw [if_neg hb]
    by_cases hk : env.audioOk
    · rw [if_pos hk]
      simp only [List.map_cons, postProgress_statusUpd, Option.getD_some,
        postProgress_progressUpd]
      have hmain :=
        mainPhase_args_good p env 10 (Or.inr rfl) hEncP hEncB hMixP hMixB
      have inner := goodArgs_cons hmain (clampProgress 10) 5
        (by decide) (by decide) (by norm_num)
      have mid := goodArgs_cons inner (clampProgress 5) 0
        (by decide) (by decide) (by norm_num)
      exact goodArgs_cons mid 0 0 le_rfl le_rfl (by norm_num)
    · rw [if_neg hk]
      simp only [List.map_cons, postProgress_statusUpd, Option.getD_some,
        postProgress_progressUpd, List.map_nil]
      have single := goodArgs_singleton (clampProgress 5) 5 99
        (by decide) (by decide)
      exact goodArgs_cons single 0 0 le_rfl (by decide) (by norm_num)

/-- Every mutation the body performs is determined and safe. -/
theorem traceBody_upds_safe (p : RenderParams) (env : RenderEnv)
    (hGood : GoodArgs 0 99 ((updatesOf (traceBody p env)).map postProgress)) :
    ∀ u ∈ updatesOf (traceBody p env), determinedUpd u ∧ safeUpd u := by
  intro u hu
  have harg := (hGood.2 (postProgress u) (List.mem_map_of_mem postProgress hu)).2
  rcases traceBody_upds_shape p env u hu with rfl | ⟨v, rfl⟩
  · exact ⟨rfl, ⟨0, rfl, by norm_num⟩⟩
  · refine ⟨trivial, ?_⟩
    show v < 100
    rw [postProgress_progressUpd] at harg
    unfold clampProgress at harg
    omega

/-- Monotone stored arguments give monotone stored progress. -/
theorem progressMono_of_args (us : List Upd)
    (hdet : ∀ u ∈ us, determinedUpd u)
    (hchain : List.Pairwise (· ≤ ·) ((0 : ℤ) :: us.map postProgress)) :
    progressMono us := by
  unfold progressMono taskStatesOf
  refine (List.chain'_map Prod.snd).mp ?_
  rw [scanl_snd_eq us (TaskStatus.pending, 0) hdet]
  exact List.chain'_iff_pairwise.mpr hchain

/-- Safe mutation sequences satisfy the 100-only-terminal property. -/
theorem only100_of_safe (us : List Upd)
    (hsafe : ∀ u ∈ us, safeUpd u) : progress100OnlyTerminal us := by
  unfold progress100OnlyTerminal taskStatesOf
  refine states_100_terminal us (TaskStatus.pending, 0) ?_ hsafe
  intro h
  norm_num at h

/-- Claim C1 (amended): over every possible run — including runs aborted
by an unmodelled exception at any point — the task's stored progress is
monotonically non-decreasing and equals exactly 100 only in a terminal
(completed/failed) status, provided the encoder progress reports are
non-decreasing with percent values in [0, 100], the mixing progress
reports are non-decreasing with percent values in [0, 100), and a
timed-out encoder fires no further progress reports.  Both restrictions
are forced by the program: the mixer's floor(10 + 85 + (100/100)*5)
stores exactly 100 on a processing task (the counterexample), and a
never-killed timed-out encoder's unguarded progress handler overwrites
the failed task's progress 100 with at most 95 afterwards (see
`lateReports_break_monotonicity`). -/
theorem taskProgress_monotone_amended (p : RenderParams) (env : RenderEnv)
    (hEnc : List.Chain' (· ≤ ·) env.encodePercents)
    (hEncB : ∀ q ∈ env.encodePercents, 0 ≤ q ∧ q ≤ 100)
    (hMix : List.Chain' (· ≤ ·) env.mixPercents)
    (hMixB : ∀ q ∈ env.mixPercents, 0 ≤ q ∧ q < 100)
    (hLate : env.lateEncodePercents = [])
    (us : List Upd) (hus : possibleUpdateTrace p env us) :
    progressMono us ∧ progress100OnlyTerminal us := by
  have hEncP := List.chain'_iff_pairwise.mp hEnc
  have hMixP := List.chain'_iff_pairwise.mp hMix
  have hGood := traceBody_args_good p env hEncP hEncB hMixP hMixB
  have hSafeAll := traceBody_upds_safe p env hGood
  have hpost : updatesOf (postResultEvs p env) = [] := by
    unfold postResultEvs lateEncodeEvs
    rw [hLate]
    split
    · rfl
    · split <;> simp
  have hfull : updatesOf (performRenderTrace p env) =
      updatesOf (traceBody p env) ++
        [Upd.resultUpd (traceSuccess p env)] := by
    rw [performRenderTrace, updatesOf_append, updatesOf_append, hpost,
      List.append_nil]
    rfl
  rcases hus with rfl | ⟨k, late, hk, hlateEq, rfl⟩
  · rw [hfull]
    constructor
    · apply progressMono_of_args
      · intro u hu
        rcases List.mem_append.mp hu with hu | hu
        · exact (hSafeAll u hu).1
        · simp at hu
          subst hu
          trivial
      · rw [List.map_append]
        have g1 := goodArgs_cons hGood 0 0 le_rfl le_rfl (by norm_num)
        have g2 := goodArgs_append g1
          (goodArgs_singleton 100 99 100 (by norm_num) le_rfl)
          (by norm_num) (by norm_num)
        have hpw := g2.1
        rw [List.cons_append] at hpw
        simpa using hpw
    · apply only100_of_safe
      intro u hu
      rcases List.mem_append.mp hu with hu | hu
      · exact (hSafeAll u hu).2
      · simp at hu
        subst hu
        trivial
  · have hlate0 : late = [] := by
      rcases hlateEq with rfl | rfl
      · rfl
      · exact hpost
    subst hlate0
    rw [List.append_nil]
    have gt : GoodArgs 0 99
        (((updatesOf (traceBody p env)).map postProgress).take k) :=
      ⟨List.Pairwise.sublist (List.take_sublist k _) hGood.1,
       fun x hx => hGood.2 x (List.mem_of_mem_take hx)⟩
    constructor
    · apply progressMono_of_args
      · intro u hu
        rcases List.mem_append.mp hu with hu | hu
        · exact (hSafeAll u (List.mem_of_mem_take hu)).1
        · simp at hu
          subst hu
          trivial
      · rw [List.map_append, List.map_take]
        have g1t := goodArgs_cons gt 0 0 le_rfl le_rfl (by norm_num)
        have g2 := goodArgs_append g1t
          (goodArgs_singleton 100 99 100 (by norm_num) le_rfl)
          (by norm_num) (by norm_num)
        have hpw := g2.1
        rw [List.cons_append] at hpw
        simpa using hpw
    · apply only100_of_safe
      intro u hu
      rcases List.mem_append.mp hu with hu | hu
      · exact (hSafeAll u (List.mem_of_mem_take hu)).2
      · simp at hu
        subst hu
        trivial

/-- Concrete parameters for the C1 counterexample: a one-second, one-fps
job with one audio track. -/
def ceParams : RenderParams :=
  { width := 800, height := 600, duration := 1, render := "x",
    fps := some 1, quality := none, args := [],
    audio := [{ url := "https://example.com/a.mp3", start := 0,
                endTime := none, volume := 1 }] }

/-- Concrete environment for the C1 counterexample: audio validates, the
encoder finishes instantly, and the mixer fires one progress event at
100 percent before its end event. -/
def ceEnv : RenderEnv :=
  { audioOk := true, encodeFinish := some (0, true), encodePercents := [],
    mixOk := true, mixPercents := [100], lateEncodePercents := [] }

theorem ceParams_totalFrames : totalFrames ceParams = 1 := by
  norm_num [totalFrames, effFps, ceParams]

theorem ceEnv_encodeOutcome :
    encodeOutcome ceParams.duration ceEnv = .ok := by
  have h30 : (0 : ℚ) < ffmpegTimeoutMs ceParams.duration :=
    lt_of_lt_of_le (by norm_num) (le_max_left _ _)
  simp [encodeOutcome, ceEnv, h30]

theorem ce_updates :
    updatesOf (performRenderTrace ceParams ceEnv) =
      [Upd.statusUpd .processing (some 0), .progressUpd 5, .progressUpd 10,
       .progressUpd 10, .progressUpd 75, .progressUpd 95, .progressUpd 100,
       .resultUpd true] := by
  have hsucc : traceSuccess ceParams ceEnv = true := by
    unfold traceSuccess
    rw [ceEnv_encodeOutcome]
    simp [ceParams, ceEnv]
  have hmix : mixProgressVal 10 100 = 100 := by
    norm_num [mixProgressVal]
  have hmain : updatesOf (mainPhase ceParams ceEnv 10) =
      [Upd.progressUpd 10, .progressUpd 75, .progressUpd 95,
       .progressUpd 100] := by
    unfold mainPhase afterEncodeEvs
    rw [updatesOf_append, updatesOf_append, updatesOf_append,
      updatesOf_flatMap_frameEvs, batchLoop_eq_range, ceParams_totalFrames,
      if_pos ceEnv_encodeOutcome]
    norm_num [List.range_succ, encodeEvs, mixEvs, ceEnv, ceParams, hmix,
      bne_iff_ne]
  have hpost : updatesOf (postResultEvs ceParams ceEnv) = [] := by
    unfold postResultEvs
    rw [ceEnv_encodeOutcome]
    simp
  rw [performRenderTrace, updatesOf_append, updatesOf_append, hpost,
    List.append_nil, updatesOf_traceBody, hsucc, hmain]
  simp [ceParams, ceEnv]

/-- Claim C1, as stated, is false on this program: with one audio track
and a mixer progress event reporting 100 percent, the worker stores
progress 100 while the task status is still processing, so progress
reaches 100 on a non-terminal status. -/
theorem taskProgress_claim_counterexample :
    ¬ (∀ (p : RenderParams) (env : RenderEnv) (us : List Upd),
        possibleUpdateTrace p env us →
        progressMono us ∧ progress100OnlyTerminal us) := by
  intro hclaim
  have h := (hclaim ceParams ceEnv
      (updatesOf (performRenderTrace ceParams ceEnv)) (Or.inl rfl)).2
  rw [ce_updates] at h
  have hmem : (TaskStatus.processing, (100 : ℤ)) ∈
      taskStatesOf
        [Upd.statusUpd .processing (some 0), .progressUpd 5,
         .progressUpd 10, .progressUpd 10, .progressUpd 75,
         .progressUpd 95, .progressUpd 100, .resultUpd true] := by
    decide
  exact absurd (h _ hmem rfl) (by decide)

/-- Witness for the amended C1 at a concrete input: a job without audio,
an instantly successful encoder, and one 50-percent encoder progress
report. -/
theorem taskProgress_monotone_amended_witness :
    (List.Chain' (· ≤ ·) (⟨true, some (0, true), [50], true, [], []⟩ :
        RenderEnv).encodePercents ∧
     (∀ q ∈ (⟨true, some (0, true), [50], true, [], []⟩ :
        RenderEnv).encodePercents, 0 ≤ q ∧ q ≤ 100) ∧
     List.Chain' (· ≤ ·) (⟨true, some (0, true), [50], true, [], []⟩ :
        RenderEnv).mixPercents ∧
     (∀ q ∈ (⟨true, some (0, true), [50], true, [], []⟩ :
        RenderEnv).mixPercents, 0 ≤ q ∧ q < 100) ∧
     (⟨true, some (0, true), [50], true, [], []⟩ :
        RenderEnv).lateEncodePercents = [] ∧
     possibleUpdateTrace sampleParams
       ⟨true, some (0, true), [50], true, [], []⟩
       (updatesOf (performRenderTrace sampleParams
         ⟨true, some (0, true), [50], true, [], []⟩))) ∧
    (progressMono (updatesOf (performRenderTrace sampleParams
        ⟨true, some (0, true), [50], true, [], []⟩)) ∧
     progress100OnlyTerminal (updatesOf (performRenderTrace sampleParams
        ⟨true, some (0, true), [50], true, [], []⟩))) := by
  have h1 : List.Chain' (· ≤ ·)
      ((⟨true, some (0, true), [50], true, [], []⟩ : RenderEnv).encodePercents) := by
    simp
  have h2 : ∀ q ∈ (⟨true, some (0, true), [50], true, [], []⟩ :
      RenderEnv).encodePercents, 0 ≤ q ∧ q ≤ 100 := by
    intro q hq
    simp at hq
    subst hq
    norm_num
  have h3 : List.Chain' (· ≤ ·)
      ((⟨true, some (0, true), [50], true, [], []⟩ : RenderEnv).mixPercents) := by
    simp
  have h4 : ∀ q ∈ (⟨true, some (0, true), [50], true, [], []⟩ :
      RenderEnv).mixPercents, 0 ≤ q ∧ q < 100 := by
    intro q hq
    simp at hq
  exact ⟨⟨h1, h2, h3, h4, rfl, Or.inl rfl⟩,
    taskProgress_monotone_amended sampleParams _ h1 h2 h3 h4 rfl _
      (Or.inl rfl)⟩

/-- Environment with a hung encoder: the deadline passes (the process is
never killed) and the orphaned encoder fires one in-range progress
report after the catch block's `setTaskResult`. -/
def lateEnv : RenderEnv :=
  { audioOk := true, encodeFinish := none, encodePercents := [],
    mixOk := true, mixPercents := [], lateEncodePercents := [50] }

theorem lateEnv_encodeOutcome :
    encodeOutcome sampleParams.duration lateEnv = .timedOut := rfl

theorem lateEnv_updates :
    updatesOf (performRenderTrace sampleParams lateEnv) =
      [Upd.statusUpd .processing (some 0), .progressUpd 0, .progressUpd 65,
       .resultUpd false, .progressUpd 75] := by
  have hN : totalFrames sampleParams = 1 := by
    norm_num [totalFrames, effFps, sampleParams]
  have hmainL : updatesOf (mainPhase sampleParams lateEnv 0) =
      [Upd.progressUpd 0, .progressUpd 65] := by
    unfold mainPhase afterEncodeEvs
    rw [updatesOf_append, updatesOf_append, updatesOf_append,
      updatesOf_flatMap_frameEvs, batchLoop_eq_range, hN,
      if_neg (by rw [lateEnv_encodeOutcome]; simp)]
    norm_num [List.range_succ, encodeEvs, lateEnv]
  have hsuccL : traceSuccess sampleParams lateEnv = false := by
    unfold traceSuccess
    rw [lateEnv_encodeOutcome]
    simp
  have hpostL : updatesOf (postResultEvs sampleParams lateEnv) =
      [Upd.progressUpd 75] := by
    unfold postResultEvs lateEncodeEvs
    have h1 : (!sampleParams.audio.isEmpty && !lateEnv.audioOk) = false := rfl
    rw [h1, if_pos lateEnv_encodeOutcome]
    norm_num [lateEnv, sampleParams, bne_iff_ne, encodeProgressVal]
  rw [performRenderTrace, updatesOf_append, updatesOf_append, hpostL,
    updatesOf_traceBody, hsuccL, hmainL,
    if_pos (by rfl : sampleParams.audio.isEmpty = true)]
  simp

/-- The restriction on late encoder reports in the amended C1 is forced
by the program: with a hung encoder, a single in-range (even
non-decreasing) late progress report overwrites the failed task's stored
progress 100 with 75, so the stored progress is not monotone even though
every percent hypothesis of the unrestricted amendment holds. -/
theorem lateReports_break_monotonicity :
    List.Chain' (· ≤ ·) lateEnv.encodePercents ∧
    (∀ q ∈ lateEnv.encodePercents, 0 ≤ q ∧ q ≤ 100) ∧
    List.Chain' (· ≤ ·) lateEnv.mixPercents ∧
    (∀ q ∈ lateEnv.mixPercents, 0 ≤ q ∧ q < 100) ∧
    possibleUpdateTrace sampleParams lateEnv
      (updatesOf (performRenderTrace sampleParams lateEnv)) ∧
    ¬ progressMono (updatesOf (performRenderTrace sampleParams lateEnv)) := by
  refine ⟨by simp [lateEnv], by simp [lateEnv], by simp [lateEnv],
    by simp [lateEnv], Or.inl rfl, ?_⟩
  rw [lateEnv_updates]
  unfold progressMono taskStatesOf
  intro h
  have hscan : List.scanl applyUpd (TaskStatus.pending, (0 : ℤ))
      [Upd.statusUpd TaskStatus.processing (some 0), Upd.progressUpd 0,
       Upd.progressUpd 65, Upd.resultUpd false, Upd.progressUpd 75] =
      [(TaskStatus.pending, 0), (TaskStatus.processing, 0),
       (TaskStatus.processing, 0), (TaskStatus.processing, 65),
       (TaskStatus.failed, 100), (TaskStatus.failed, 75)] := by
    decide
  rw [hscan] at h
  norm_num [List.chain'_cons] at h
